import Mathlib

/-!
Verification of the Web Push encryption and dispatch subsystem of the
generated-news repository (workers/push-api/src/index.js): the base64url
codec, the HKDF key-derivation primitive, aes128gcm record construction,
the VAPID authorization builder, and the trigger orchestrator.

External platform primitives are modelled as follows: `btoa`/`atob` are
modelled concretely from the WHATWG infra specification (forgiving
base64, the semantics Cloudflare Workers implement); the Web Crypto
operations (HMAC-SHA256, ECDH, AES-128-GCM, ECDSA) are abstracted as an
arbitrary `Crypto` structure, since their internals are not part of the
repository.  Per-call randomness (the ephemeral key pair and the record
salt) is passed explicitly, as the spec directs for testability.
-/

namespace PushApi

/-- Byte strings are lists of naturals; a genuine byte satisfies `< 256`. -/
abbrev Bytes := List Nat

/-- The standard base64 alphabet, indices 0 to 63. -/
def b64Chars : List Char :=
  "ABCDEFGHIJKLMNOPQRSTUVWXYZabcdefghijklmnopqrstuvwxyz0123456789+/".data

/-- Alphabet character of a 6-bit value. -/
def b64Char (n : Nat) : Char := b64Chars.getD n ('?' : Char)

def charIndex (c : Char) : List Char → Nat → Option Nat
  | [], _ => none
  | x :: xs, i => if x = c then some i else charIndex c xs (i + 1)

/-- 6-bit value of an alphabet character (`none` outside the alphabet). -/
def b64Val (c : Char) : Option Nat := charIndex c b64Chars 0

/-- Modelled from the platform: WHATWG `btoa` on a binary string whose
code units are the given byte values, producing padded standard base64. -/
def btoa : Bytes → List Char
  | [] => []
  | [a] => [b64Char (a / 4), b64Char (a % 4 * 16), ('=' : Char), ('=' : Char)]
  | [a, b] => [b64Char (a / 4), b64Char (a % 4 * 16 + b / 16), b64Char (b % 16 * 4), ('=' : Char)]
  | a :: b :: c :: rest =>
      b64Char (a / 4) :: b64Char (a % 4 * 16 + b / 16) ::
      b64Char (b % 16 * 4 + c / 64) :: b64Char (c % 64) :: btoa rest

/-- Remove one trailing `=` if present (one step of WHATWG forgiving
base64 preprocessing). -/
def dropOneEq (s : List Char) : List Char :=
  if s.getLast? = some ('=' : Char) then s.dropLast else s

/-- Map every alphabet character to its 6-bit value, failing on any
character outside the alphabet (WHATWG forgiving-base64 step 4). -/
def mapVals : List Char → Option (List Nat)
  | [] => some []
  | c :: cs =>
    match b64Val c, mapVals cs with
    | some v, some vs => some (v :: vs)
    | _, _ => none

/-- Reassemble bytes from 6-bit values; a trailing group of two or three
values yields one or two bytes (WHATWG forgiving-base64 step 8). -/
def b64Group : List Nat → Bytes
  | v1 :: v2 :: v3 :: v4 :: rest =>
      (v1 * 4 + v2 / 16) :: (v2 % 16 * 16 + v3 / 4) :: (v3 % 4 * 64 + v4) :: b64Group rest
  | [v1, v2, v3] => [v1 * 4 + v2 / 16, v2 % 16 * 16 + v3 / 4]
  | [v1, v2] => [v1 * 4 + v2 / 16]
  | _ => []

/-- Modelled from the platform: WHATWG `atob` (forgiving-base64 decode,
whitespace-free inputs): when the length is a multiple of four, strip up
to two trailing `=`; fail when the remaining length is 1 mod 4 or when a
character is outside the alphabet; otherwise decode. -/
def atob (s : List Char) : Option Bytes :=
  let t := if s.length % 4 = 0 then dropOneEq (dropOneEq s) else s
  if t.length % 4 = 1 then none else (mapVals t).map b64Group

def urlDecodeChar (c : Char) : Char :=
  if c = ('-' : Char) then ('+' : Char) else if c = ('_' : Char) then ('/' : Char) else c

def urlEncodeChar (c : Char) : Char :=
  if c = ('+' : Char) then ('-' : Char) else if c = ('/' : Char) then ('_' : Char) else c

/-- `base64UrlDecode` from the source: map `-` to `+` and `_` to `/`,
then decode with `atob` and read off the code units as bytes. -/
def base64UrlDecode (str : String) : Option Bytes :=
  atob (str.data.map urlDecodeChar)

def stripTrailingEq (s : List Char) : List Char :=
  (s.reverse.dropWhile (fun c => c = ('=' : Char))).reverse

/-- `base64UrlEncode` from the source: `btoa` of the byte string, with
`+` mapped to `-`, `/` mapped to `_`, and trailing `=` stripped. -/
def base64UrlEncode (buffer : Bytes) : String :=
  String.mk (stripTrailingEq ((btoa buffer).map urlEncodeChar))

/-- Modelled from the spec's words, for comparison with the code's
`base64UrlDecode`: reconstruct the stripped `=` padding, then interpret
the text as standard base64. -/
def base64UrlDecodePadded (str : String) : Option Bytes :=
  atob (str.data.map urlDecodeChar ++
    List.replicate ((4 - (str.data.map urlDecodeChar).length % 4) % 4) ('=' : Char))

/-- `TextEncoder().encode`; every string in this development is ASCII,
for which UTF-8 is the identity on code points. -/
def utf8 (s : String) : Bytes := s.data.map Char.toNat

/-- The unpadded base64 chunks of a byte string: `btoa` without the
trailing `=` padding. -/
def b64core : Bytes → List Char
  | [] => []
  | [a] => [b64Char (a / 4), b64Char (a % 4 * 16)]
  | [a, b] => [b64Char (a / 4), b64Char (a % 4 * 16 + b / 16), b64Char (b % 16 * 4)]
  | a :: b :: c :: rest =>
      b64Char (a / 4) :: b64Char (a % 4 * 16 + b / 16) ::
      b64Char (b % 16 * 4 + c / 64) :: b64Char (c % 64) :: b64core rest

/-- The 6-bit values of those chunks. -/
def b64vals : Bytes → List Nat
  | [] => []
  | [a] => [a / 4, a % 4 * 16]
  | [a, b] => [a / 4, a % 4 * 16 + b / 16, b % 16 * 4]
  | a :: b :: c :: rest =>
      a / 4 :: (a % 4 * 16 + b / 16) :: (b % 16 * 4 + c / 64) :: c % 64 :: b64vals rest

/-- `DataView.setUint32` with big-endian byte order (the default), as
used for the `rs` field of the record header. -/
def toBE4 (n : Nat) : Bytes :=
  [n / 2 ^ 24 % 256, n / 2 ^ 16 % 256, n / 2 ^ 8 % 256, n % 256]

/-- The Web Crypto primitives the worker calls; their internals live in
the platform, not the repository, so they are abstract here.
`validP256Point` is the success condition of `crypto.subtle.importKey`
on a raw P-256 public key (the import throws on anything that is not a
valid 65-byte uncompressed point). -/
structure Crypto where
  hmacSHA256 : Bytes → Bytes → Bytes
  validP256Point : Bytes → Bool
  ecdhBits : Bytes → Bytes → Bytes
  aesGcmEncrypt : Bytes → Bytes → Bytes → Bytes
  ecdsaSign : Bytes → Bytes → Bytes

/-- `hkdf(salt, ikm, info, length)` from the source: extract a
pseudo-random key with HMAC-SHA256 keyed by the salt (or 32 zero bytes
when the salt is empty) over the input key material, then expand once
with the info string followed by a `0x01` byte, truncating to `length`. -/
def hkdf (C : Crypto) (salt ikm info : Bytes) (length : Nat) : Bytes :=
  let prk := C.hmacSHA256 (if salt.length = 0 then List.replicate 32 0 else salt) ikm
  let okm := C.hmacSHA256 prk (info ++ [1])
  okm.take length

/-- A push subscription as stored: the endpoint (already parsed into
scheme and host by the platform URL parser) and the two base64url text
keys `p256dh` and `auth`. -/
structure UrlParts where
  protocol : String
  host : String
deriving DecidableEq

structure Subscription where
  endpoint : UrlParts
  p256dh : String
  auth : String
deriving DecidableEq

/-- The per-call randomness of `encryptPayload`, passed explicitly: the
ephemeral ECDH key pair generated at the top of the function (`priv` is
an abstract handle to the private half, `pubRaw` the exported 65-byte
uncompressed point). -/
structure EphemeralKeys where
  priv : Bytes
  pubRaw : Bytes
deriving DecidableEq

structure EncryptedPayload where
  body : Bytes
  serverPublicKey : String
  salt : String
deriving DecidableEq

/-- `encryptPayload` from the source, with the random ephemeral key and
record salt as explicit inputs and the payload already encoded to
bytes.  Thrown platform errors become `Except.error`. -/
def encryptPayload (C : Crypto) (eph : EphemeralKeys) (salt : Bytes)
    (sub : Subscription) (payloadBytes : Bytes) : Except String EncryptedPayload :=
  match base64UrlDecode sub.p256dh with
  | none => .error "InvalidCharacterError"
  | some clientPublicKey =>
    match base64UrlDecode sub.auth with
    | none => .error "InvalidCharacterError"
    | some clientAuth =>
      if C.validP256Point clientPublicKey then
        let sharedSecret := C.ecdhBits eph.priv clientPublicKey
        let authInfo := utf8 "WebPush: info\x00" ++ clientPublicKey ++ eph.pubRaw
        let ikm := hkdf C clientAuth sharedSecret authInfo 32
        let cek := hkdf C salt ikm (utf8 "Content-Encoding: aes128gcm\x00") 16
        let nonce := hkdf C salt ikm (utf8 "Content-Encoding: nonce\x00") 12
        let paddedPayload := payloadBytes ++ [2]
        let encrypted := C.aesGcmEncrypt cek nonce paddedPayload
        let body := salt ++ toBE4 4096 ++ [65] ++ eph.pubRaw ++ encrypted
        .ok ⟨body, base64UrlEncode eph.pubRaw, base64UrlEncode salt⟩
      else .error "DataError"

/-- `createVapidAuth` from the source, with the current UNIX time in
seconds and the parsed endpoint URL as explicit inputs. -/
def createVapidAuth (C : Crypto) (nowSec : Nat) (endpoint : UrlParts)
    (vapidPublicKey vapidPrivateKey : String) : Except String String :=
  let audience := endpoint.protocol ++ "//" ++ endpoint.host
  let expiration := nowSec + 12 * 60 * 60
  let headerJson := "\x7b\"typ\":\"JWT\",\"alg\":\"ES256\"\x7d"
  let payloadJson := "\x7b\"aud\":\"" ++ audience ++ "\",\"exp\":" ++ toString expiration
    ++ ",\"sub\":\"mailto:info@generated-news.com\"\x7d"
  let headerB64 := base64UrlEncode (utf8 headerJson)
  let payloadB64 := base64UrlEncode (utf8 payloadJson)
  let unsignedToken := headerB64 ++ "." ++ payloadB64
  match base64UrlDecode vapidPrivateKey with
  | none => .error "InvalidCharacterError"
  | some privateKeyBytes =>
    match base64UrlDecode vapidPublicKey with
    | none => .error "InvalidCharacterError"
    | some _ =>
      let signature := C.ecdsaSign privateKeyBytes (utf8 unsignedToken)
      let jwt := unsignedToken ++ "." ++ base64UrlEncode signature
      .ok ("vapid t=" ++ jwt ++ ", k=" ++ vapidPublicKey)

structure SendResult where
  success : Bool
  expired : Bool := false
  status : Option Nat := none
  error : Option String := none
deriving DecidableEq

structure Env where
  vapidPublicKey : String
  vapidPrivateKey : String
deriving DecidableEq

/-- `sendPushNotification` from the source.  The network is modelled by
`fetchResult`, either a status code or a thrown network error; the
second component of the result is the headers of the request actually
issued (`none` when the function failed before reaching `fetch`).  The
surrounding `try`/`catch` turns every thrown error into a result with
`success := false` and the error message. -/
def sendPushNotification (C : Crypto) (eph : EphemeralKeys) (salt : Bytes)
    (nowSec : Nat) (sub : Subscription) (payload : Bytes) (env : Env)
    (fetchResult : Except String Nat) :
    SendResult × Option (List (String × String)) :=
  match encryptPayload C eph salt sub payload with
  | .error e => (⟨false, false, none, some e⟩, none)
  | .ok encrypted =>
    match createVapidAuth C nowSec sub.endpoint env.vapidPublicKey env.vapidPrivateKey with
    | .error e => (⟨false, false, none, some e⟩, none)
    | .ok authorization =>
      let headers := [("Content-Type", "application/octet-stream"),
                      ("Content-Encoding", "aes128gcm"),
                      ("Content-Length", toString encrypted.body.length),
                      ("Authorization", authorization),
                      ("TTL", "86400"),
                      ("Urgency", "normal")]
      match fetchResult with
      | .error e => (⟨false, false, none, some e⟩, some headers)
      | .ok status =>
        if status = 410 ∨ status = 404 then
          (⟨false, true, some status, none⟩, some headers)
        else
          (⟨decide (200 ≤ status ∧ status < 300), false, some status, none⟩, some headers)

structure TriggerCounts where
  sent : Nat
  failed : Nat
  expired : Nat
deriving DecidableEq

/-- One subscription entry of the trigger loop: the KV key name, the
stored subscription (`none` when the KV read returns nothing), and the
per-send randomness and network behaviour. -/
structure SubEntry where
  name : String
  stored : Option Subscription
  eph : EphemeralKeys
  salt : Bytes
  fetchResult : Except String Nat

/-- The per-subscription body of the `POST /api/push/trigger` loop:
count the outcome, and delete the KV key exactly when the send reported
`expired`.  The second component lists the deletion calls made. -/
def processSubscription (C : Crypto) (nowSec : Nat) (env : Env) (payload : Bytes)
    (e : SubEntry) : TriggerCounts × List String :=
  match e.stored with
  | none => (⟨0, 0, 0⟩, [])
  | some sub =>
    let r := (sendPushNotification C e.eph e.salt nowSec sub payload env e.fetchResult).1
    if r.success then (⟨1, 0, 0⟩, [])
    else if r.expired then (⟨0, 0, 1⟩, [e.name])
    else (⟨0, 1, 0⟩, [])

def addCounts (a b : TriggerCounts) : TriggerCounts :=
  ⟨a.sent + b.sent, a.failed + b.failed, a.expired + b.expired⟩

/-- The `POST /api/push/trigger` orchestrator over its subscription
list: aggregate counts and the list of deletion calls. -/
def triggerPush (C : Crypto) (nowSec : Nat) (env : Env) (payload : Bytes) :
    List SubEntry → TriggerCounts × List String
  | [] => (⟨0, 0, 0⟩, [])
  | e :: rest =>
    let p := processSubscription C nowSec env payload e
    let r := triggerPush C nowSec env payload rest
    (addCounts p.1 r.1, p.2 ++ r.2)

/-- A concrete instantiation of the abstract platform primitives, used
only to evaluate the theorems on explicit inputs; the output lengths
match the real primitives (32-byte HMAC, plaintext plus a 16-byte tag). -/
def testCrypto : Crypto where
  hmacSHA256 := fun k m => (List.range 32).map (fun i => (k.sum + m.sum + i) % 256)
  validP256Point := fun l => (l.length == 65) && (l.head? == some 4)
  ecdhBits := fun pr pub => (List.range 32).map (fun i => (pr.sum + 2 * pub.sum + i) % 256)
  aesGcmEncrypt := fun k iv p => p.map (fun x => (x + k.sum + iv.sum) % 256) ++ List.replicate 16 0
  ecdsaSign := fun d m => (List.range 64).map (fun i => (d.sum + 3 * m.sum + i) % 256)

def testClientPublicKey : Bytes := 4 :: List.replicate 64 1

def testAuthSecret : Bytes := List.replicate 16 2

def testEndpoint : UrlParts := ⟨"https:", "push.example.org"⟩

def testSub : Subscription :=
  ⟨testEndpoint, base64UrlEncode testClientPublicKey, base64UrlEncode testAuthSecret⟩

/-- A subscription whose decoded `authSecret` has 17 bytes, not 16. -/
def testSubBadAuth : Subscription :=
  ⟨testEndpoint, base64UrlEncode testClientPublicKey, base64UrlEncode (List.replicate 17 2)⟩

/-- A subscription whose decoded `clientPublicKey` has 64 bytes and so
is rejected by the raw P-256 key import. -/
def testSubBadKey : Subscription :=
  ⟨testEndpoint, base64UrlEncode (List.replicate 64 1), base64UrlEncode testAuthSecret⟩

def testEph : EphemeralKeys := ⟨List.replicate 32 3, 4 :: List.replicate 64 5⟩

def testSalt : Bytes := List.range 16

def testSalt2 : Bytes := (List.range 16).map (fun i => i + 1)

def testEnv : Env :=
  ⟨base64UrlEncode (4 :: List.replicate 64 6), base64UrlEncode (List.replicate 32 7)⟩

def testPayload : Bytes := [104, 105]

def testEntries : List SubEntry :=
  [⟨"sub:a", some testSub, testEph, testSalt, .ok 200⟩,
   ⟨"sub:b", some testSub, testEph, testSalt, .ok 410⟩,
   ⟨"sub:c", none, testEph, testSalt, .ok 200⟩]

/-- Every 6-bit value maps to an alphabet character that decodes back to
it, survives the URL-safe substitution round trip, and is none of the
three characters the URL-safe form excludes. -/
lemma b64Char_facts : ∀ v, v < 64 →
    b64Val (b64Char v) = some v ∧
    urlDecodeChar (urlEncodeChar (b64Char v)) = b64Char v ∧
    urlEncodeChar (b64Char v) ≠ ('=' : Char) ∧
    urlEncodeChar (b64Char v) ≠ ('+' : Char) ∧
    urlEncodeChar (b64Char v) ≠ ('/' : Char) ∧
    b64Char v ≠ ('=' : Char) := by decide

lemma core_mem (b : Bytes) : (∀ x ∈ b, x < 256) →
    ∀ c ∈ b64core b, ∃ v, v < 64 ∧ c = b64Char v := by
  induction b using b64core.induct with
  | case1 => intro _ c hc; simp [b64core] at hc
  | case2 a =>
    intro hb c hc
    have ha : a < 256 := hb a (by simp)
    simp only [b64core, List.mem_cons, List.not_mem_nil, or_false] at hc
    rcases hc with rfl | rfl
    · exact ⟨a / 4, by omega, rfl⟩
    · exact ⟨a % 4 * 16, by omega, rfl⟩
  | case3 a b =>
    intro hb c hc
    have ha : a < 256 := hb a (by simp)
    have hb2 : b < 256 := hb b (by simp)
    simp only [b64core, List.mem_cons, List.not_mem_nil, or_false] at hc
    rcases hc with rfl | rfl | rfl
    · exact ⟨a / 4, by omega, rfl⟩
    · exact ⟨a % 4 * 16 + b / 16, by omega, rfl⟩
    · exact ⟨b % 16 * 4, by omega, rfl⟩
  | case4 a b c rest ih =>
    intro hb d hd
    have ha : a < 256 := hb a (by simp)
    have hb2 : b < 256 := hb b (by simp)
    have hc2 : c < 256 := hb c (by simp)
    simp only [b64core, List.mem_cons] at hd
    rcases hd with rfl | rfl | rfl | rfl | hd
    · exact ⟨a / 4, by omega, rfl⟩
    · exact ⟨a % 4 * 16 + b / 16, by omega, rfl⟩
    · exact ⟨b % 16 * 4 + c / 64, by omega, rfl⟩
    · exact ⟨c % 64, by omega, rfl⟩
    · exact ih (fun x hx => hb x (by simp [hx])) d hd

lemma core_ne_eq (b : Bytes) (hb : ∀ x ∈ b, x < 256) :
    ∀ c ∈ b64core b, c ≠ ('=' : Char) := by
  intro c hc
  obtain ⟨v, hv, rfl⟩ := core_mem b hb c hc
  exact (b64Char_facts v hv).2.2.2.2.2

lemma dropWhile_eq_self_of_ne (l : List Char) (h : ∀ c ∈ l, c ≠ ('=' : Char)) :
    l.dropWhile (fun c => c = ('=' : Char)) = l := by
  cases l with
  | nil => rfl
  | cons x xs =>
    rw [List.dropWhile_cons]
    simp [h x (by simp)]

lemma stripTrailingEq_append (l1 l2 : List Char) (h : ∀ c ∈ l1, c ≠ ('=' : Char)) :
    stripTrailingEq (l1 ++ l2) = l1 ++ stripTrailingEq l2 := by
  unfold stripTrailingEq
  rw [List.reverse_append, List.dropWhile_append]
  have hrev : ∀ c ∈ l1.reverse, c ≠ ('=' : Char) := fun c hc => h c (List.mem_reverse.mp hc)
  by_cases hemp : (l2.reverse.dropWhile (fun c => decide (c = ('=' : Char)))).isEmpty
  · simp only [hemp, if_true]
    rw [dropWhile_eq_self_of_ne l1.reverse hrev, List.reverse_reverse]
    rw [List.isEmpty_iff] at hemp
    simp [hemp]
  · rw [Bool.not_eq_true] at hemp
    rw [hemp]
    simp [List.reverse_append]

lemma stripped_eq (b : Bytes) : (∀ x ∈ b, x < 256) →
    stripTrailingEq ((btoa b).map urlEncodeChar) = (b64core b).map urlEncodeChar := by
  induction b using b64core.induct with
  | case1 => intro _; rfl
  | case2 a =>
    intro hb
    have ha : a < 256 := hb a (by simp)
    have h2 : urlEncodeChar (b64Char (a % 4 * 16)) ≠ ('=' : Char) :=
      (b64Char_facts _ (by omega)).2.2.1
    have heq : urlEncodeChar ('=' : Char) = ('=' : Char) := by decide
    simp only [btoa, b64core, List.map_cons, List.map_nil, heq]
    unfold stripTrailingEq
    simp [List.dropWhile_cons, h2]
  | case3 a b =>
    intro hb
    have ha : a < 256 := hb a (by simp)
    have hb2 : b < 256 := hb b (by simp)
    have h3 : urlEncodeChar (b64Char (b % 16 * 4)) ≠ ('=' : Char) :=
      (b64Char_facts _ (by omega)).2.2.1
    have heq : urlEncodeChar ('=' : Char) = ('=' : Char) := by decide
    simp only [btoa, b64core, List.map_cons, List.map_nil, heq]
    unfold stripTrailingEq
    simp [List.dropWhile_cons, h3]
  | case4 a b c rest ih =>
    intro hb
    have ha : a < 256 := hb a (by simp)
    have hb2 : b < 256 := hb b (by simp)
    have hc2 : c < 256 := hb c (by simp)
    have hrest : ∀ x ∈ rest, x < 256 := fun x hx => hb x (by simp [hx])
    have hpre : ∀ x ∈ [urlEncodeChar (b64Char (a / 4)),
        urlEncodeChar (b64Char (a % 4 * 16 + b / 16)),
        urlEncodeChar (b64Char (b % 16 * 4 + c / 64)),
        urlEncodeChar (b64Char (c % 64))], x ≠ ('=' : Char) := by
      intro x hx
      simp only [List.mem_cons, List.not_mem_nil, or_false] at hx
      rcases hx with rfl | rfl | rfl | rfl
      · exact (b64Char_facts _ (by omega)).2.2.1
      · exact (b64Char_facts _ (by omega)).2.2.1
      · exact (b64Char_facts _ (by omega)).2.2.1
      · exact (b64Char_facts _ (by omega)).2.2.1
    have happ := stripTrailingEq_append _ ((btoa rest).map urlEncodeChar) hpre
    rw [ih hrest] at happ
    simp only [btoa, b64core, List.map_cons]
    exact happ

lemma mapVals_core (b : Bytes) : (∀ x ∈ b, x < 256) →
    mapVals (b64core b) = some (b64vals b) := by
  induction b using b64core.induct with
  | case1 => intro _; rfl
  | case2 a =>
    intro hb
    have ha : a < 256 := hb a (by simp)
    have h1 := (b64Char_facts (a / 4) (by omega)).1
    have h2 := (b64Char_facts (a % 4 * 16) (by omega)).1
    simp [b64core, b64vals, mapVals, h1, h2]
  | case3 a b =>
    intro hb
    have ha : a < 256 := hb a (by simp)
    have hb2 : b < 256 := hb b (by simp)
    have h1 := (b64Char_facts (a / 4) (by omega)).1
    have h2 := (b64Char_facts (a % 4 * 16 + b / 16) (by omega)).1
    have h3 := (b64Char_facts (b % 16 * 4) (by omega)).1
    simp [b64core, b64vals, mapVals, h1, h2, h3]
  | case4 a b c rest ih =>
    intro hb
    have ha : a < 256 := hb a (by simp)
    have hb2 : b < 256 := hb b (by simp)
    have hc2 : c < 256 := hb c (by simp)
    have hrest : ∀ x ∈ rest, x < 256 := fun x hx => hb x (by simp [hx])
    have h1 := (b64Char_facts (a / 4) (by omega)).1
    have h2 := (b64Char_facts (a % 4 * 16 + b / 16) (by omega)).1
    have h3 := (b64Char_facts (b % 16 * 4 + c / 64) (by omega)).1
    have h4 := (b64Char_facts (c % 64) (by omega)).1
    simp [b64core, b64vals, mapVals, h1, h2, h3, h4, ih hrest]

lemma group_vals (b : Bytes) : (∀ x ∈ b, x < 256) →
    b64Group (b64vals b) = b := by
  induction b using b64vals.induct with
  | case1 => intro _; rfl
  | case2 a =>
    intro hb
    have ha : a < 256 := hb a (by simp)
    simp only [b64vals, b64Group, List.cons.injEq, and_true]
    omega
  | case3 a b =>
    intro hb
    have ha : a < 256 := hb a (by simp)
    have hb2 : b < 256 := hb b (by simp)
    simp only [b64vals, b64Group, List.cons.injEq, and_true]
    omega
  | case4 a b c rest ih =>
    intro hb
    have ha : a < 256 := hb a (by simp)
    have hb2 : b < 256 := hb b (by simp)
    have hc2 : c < 256 := hb c (by simp)
    have hrest : ∀ x ∈ rest, x < 256 := fun x hx => hb x (by simp [hx])
    simp only [b64vals, b64Group, List.cons.injEq]
    refine ⟨by omega, by omega, by omega, ih hrest⟩

lemma core_len (b : Bytes) :
    (b64core b).length % 4 = if b.length % 3 = 0 then 0 else b.length % 3 + 1 := by
  induction b using b64core.induct with
  | case1 => rfl
  | case2 a => rfl
  | case3 a b => rfl
  | case4 a b c rest ih =>
    simp only [b64core, List.length_cons]
    have h4 : ((b64core rest).length + 1 + 1 + 1 + 1) % 4 = (b64core rest).length % 4 := by
      omega
    rw [h4, ih]
    have h3 : (rest.length + 1 + 1 + 1) % 3 = rest.length % 3 := by omega
    rw [h3]

lemma dropOneEq_eq_self (s : List Char) (h : ∀ c ∈ s, c ≠ ('=' : Char)) :
    dropOneEq s = s := by
  unfold dropOneEq
  split_ifs with hl
  · exfalso
    cases s with
    | nil => simp at hl
    | cons x xs =>
      have : ('=' : Char) ∈ x :: xs := by
        have := List.getLast?_eq_getLast (x :: xs) (by simp)
        rw [this] at hl
        have heq : (x :: xs).getLast (by simp) = ('=' : Char) := by
          simpa using hl
        rw [← heq]
        exact List.getLast_mem _
      exact h _ this rfl
  · rfl

lemma dropOneEq_concat (l : List Char) :
    dropOneEq (l ++ [('=' : Char)]) = l := by
  unfold dropOneEq
  rw [List.getLast?_concat]
  simp [List.dropLast_concat]

lemma atob_core (b : Bytes) (hb : ∀ x ∈ b, x < 256) :
    atob (b64core b) = some b := by
  have hne := core_ne_eq b hb
  have hdrop : dropOneEq (dropOneEq (b64core b)) = b64core b := by
    rw [dropOneEq_eq_self _ hne, dropOneEq_eq_self _ hne]
  have hlen : ¬ (b64core b).length % 4 = 1 := by
    rw [core_len]
    by_cases h : b.length % 3 = 0
    · simp [h]
    · rw [if_neg h]; omega
  unfold atob
  simp only [hdrop, ite_self]
  rw [if_neg hlen, mapVals_core b hb]
  simp [group_vals b hb]

lemma atob_core_pad2 (b : Bytes) (hb : ∀ x ∈ b, x < 256)
    (hlen : (b64core b).length % 4 = 2) :
    atob (b64core b ++ [('=' : Char), ('=' : Char)]) = some b := by
  unfold atob
  have hl : (b64core b ++ [('=' : Char), ('=' : Char)]).length % 4 = 0 := by
    rw [List.length_append]
    simp only [List.length_cons, List.length_nil]
    omega
  rw [if_pos hl]
  have e1 : b64core b ++ [('=' : Char), ('=' : Char)] =
      (b64core b ++ [('=' : Char)]) ++ [('=' : Char)] := by simp
  rw [e1, dropOneEq_concat, dropOneEq_concat]
  rw [if_neg (by omega), mapVals_core b hb]
  simp [group_vals b hb]

lemma atob_core_pad1 (b : Bytes) (hb : ∀ x ∈ b, x < 256)
    (hlen : (b64core b).length % 4 = 3) :
    atob (b64core b ++ [('=' : Char)]) = some b := by
  unfold atob
  have hl : (b64core b ++ [('=' : Char)]).length % 4 = 0 := by
    rw [List.length_append]
    simp only [List.length_cons, List.length_nil]
    omega
  rw [if_pos hl]
  rw [dropOneEq_concat, dropOneEq_eq_self _ (core_ne_eq b hb)]
  rw [if_neg (by omega), mapVals_core b hb]
  simp [group_vals b hb]

lemma core_map_inv (b : Bytes) (hb : ∀ x ∈ b, x < 256) :
    ((b64core b).map urlEncodeChar).map urlDecodeChar = b64core b := by
  rw [List.map_map]
  have h : ∀ c ∈ b64core b, (urlDecodeChar ∘ urlEncodeChar) c = id c := by
    intro c hc
    obtain ⟨v, hv, rfl⟩ := core_mem b hb c hc
    exact (b64Char_facts v hv).2.1
  rw [List.map_congr_left h, List.map_id]

lemma decode_encode (b : Bytes) (hb : ∀ x ∈ b, x < 256) :
    base64UrlDecode (base64UrlEncode b) = some b := by
  have hdata : (base64UrlEncode b).data = (b64core b).map urlEncodeChar := stripped_eq b hb
  unfold base64UrlDecode
  rw [hdata, core_map_inv b hb]
  exact atob_core b hb

/-- C5: for every byte buffer, the URL-safe encoding contains none of
`+`, `/`, `=`; decoding it recovers the buffer; and the decoder that
first reconstructs the stripped `=` padding and then reads standard
base64 computes the same result, so the code's decoder behaves exactly
as a padding-reconstructing decoder on every encoder output. -/
theorem base64Url_roundtrip (b : Bytes) (hb : ∀ x ∈ b, x < 256) :
    base64UrlDecode (base64UrlEncode b) = some b ∧
    (∀ c ∈ (base64UrlEncode b).data,
      c ≠ ('+' : Char) ∧ c ≠ ('/' : Char) ∧ c ≠ ('=' : Char)) ∧
    base64UrlDecodePadded (base64UrlEncode b) = some b := by
  have hdata : (base64UrlEncode b).data = (b64core b).map urlEncodeChar := stripped_eq b hb
  refine ⟨decode_encode b hb, ?_, ?_⟩
  · intro c hc
    rw [hdata] at hc
    obtain ⟨c0, hc0, rfl⟩ := List.mem_map.mp hc
    obtain ⟨v, hv, rfl⟩ := core_mem b hb c0 hc0
    exact ⟨(b64Char_facts v hv).2.2.2.1, (b64Char_facts v hv).2.2.2.2.1,
      (b64Char_facts v hv).2.2.1⟩
  · unfold base64UrlDecodePadded
    rw [hdata, core_map_inv b hb]
    have hl := core_len b
    by_cases h0 : b.length % 3 = 0
    · rw [if_pos h0] at hl
      rw [hl]
      simpa using atob_core b hb
    · rw [if_neg h0] at hl
      have h12 : b.length % 3 = 1 ∨ b.length % 3 = 2 := by omega
      rcases h12 with h1 | h2
      · rw [h1] at hl
        rw [hl]
        simpa [List.replicate] using atob_core_pad2 b hb hl
      · rw [h2] at hl
        rw [hl]
        simpa [List.replicate] using atob_core_pad1 b hb hl

lemma encryptPayload_eq (C : Crypto) (eph : EphemeralKeys) (salt : Bytes)
    (sub : Subscription) (payload : Bytes) (pk au : Bytes)
    (hpk : base64UrlDecode sub.p256dh = some pk)
    (hau : base64UrlDecode sub.auth = some au)
    (hv : C.validP256Point pk = true) :
    encryptPayload C eph salt sub payload =
      .ok ⟨salt ++ toBE4 4096 ++ [65] ++ eph.pubRaw ++
            C.aesGcmEncrypt
              (hkdf C salt (hkdf C au (C.ecdhBits eph.priv pk)
                  (utf8 "WebPush: info\x00" ++ pk ++ eph.pubRaw) 32)
                (utf8 "Content-Encoding: aes128gcm\x00") 16)
              (hkdf C salt (hkdf C au (C.ecdhBits eph.priv pk)
                  (utf8 "WebPush: info\x00" ++ pk ++ eph.pubRaw) 32)
                (utf8 "Content-Encoding: nonce\x00") 12)
              (payload ++ [2]),
           base64UrlEncode eph.pubRaw, base64UrlEncode salt⟩ := by
  unfold encryptPayload
  simp only [hpk, hau, hv]
  simp

lemma encryptPayload_invalid_key (C : Crypto) (eph : EphemeralKeys) (salt : Bytes)
    (sub : Subscription) (payload : Bytes) (pk au : Bytes)
    (hpk : base64UrlDecode sub.p256dh = some pk)
    (hau : base64UrlDecode sub.auth = some au)
    (hv : C.validP256Point pk = false) :
    encryptPayload C eph salt sub payload = .error "DataError" := by
  unfold encryptPayload
  simp only [hpk, hau, hv]
  simp

theorem base64Url_roundtrip_witness :
    (∀ x ∈ ([104, 101, 108, 108, 111] : Bytes), x < 256) ∧
    (base64UrlDecode (base64UrlEncode [104, 101, 108, 108, 111]) =
        some [104, 101, 108, 108, 111] ∧
      (∀ c ∈ (base64UrlEncode [104, 101, 108, 108, 111]).data,
        c ≠ ('+' : Char) ∧ c ≠ ('/' : Char) ∧ c ≠ ('=' : Char)) ∧
      base64UrlDecodePadded (base64UrlEncode [104, 101, 108, 108, 111]) =
        some [104, 101, 108, 108, 111]) :=
  ⟨by decide, base64Url_roundtrip [104, 101, 108, 108, 111] (by decide)⟩

/-- C3: `hkdf` is the single-block HKDF.  The pseudo-random key is
HMAC-SHA256 keyed with the salt, or with 32 zero bytes when the salt is
empty, over the input key material; the output is the first `length`
bytes of HMAC-SHA256 of the info string followed by a single 0x01 byte;
for `length ≤ 32` the result has exactly `length` bytes.  Being a plain
function of its four arguments, it is deterministic by construction. -/
theorem hkdf_single_block (C : Crypto) (salt ikm info : Bytes) (len : Nat)
    (h32 : ∀ k m, (C.hmacSHA256 k m).length = 32) (hlen : len ≤ 32) :
    hkdf C salt ikm info len =
      (C.hmacSHA256
        (C.hmacSHA256 (if salt = [] then List.replicate 32 0 else salt) ikm)
        (info ++ [1])).take len ∧
    (hkdf C salt ikm info len).length = len := by
  have hif : (if salt.length = 0 then List.replicate 32 0 else salt) =
      (if salt = [] then List.replicate 32 0 else salt) := by
    cases salt <;> simp
  constructor
  · unfold hkdf
    rw [hif]
  · unfold hkdf
    rw [List.length_take, h32]
    omega

theorem hkdf_single_block_witness :
    (∀ k m, (testCrypto.hmacSHA256 k m).length = 32) ∧ (16 : Nat) ≤ 32 ∧
    (hkdf testCrypto [1] [2] [3] 16 =
      (testCrypto.hmacSHA256
        (testCrypto.hmacSHA256 (if ([1] : Bytes) = [] then List.replicate 32 0 else [1]) [2])
        ([3] ++ [1])).take 16 ∧
     (hkdf testCrypto [1] [2] [3] 16).length = 16) :=
  ⟨fun k m => by simp [testCrypto], by omega,
    hkdf_single_block testCrypto [1] [2] [3] 16 (fun k m => by simp [testCrypto]) (by omega)⟩

/-- C1: when both subscription keys decode and the client key imports,
the wire record is exactly recordSalt, then the 4-byte big-endian
encoding of the fixed value 4096, then the single byte 65, then the
ephemeral public key, then the AES-128-GCM output (ciphertext with its
authentication tag) for the plaintext with a single 0x02 byte appended,
under the derived content-encryption key and nonce. -/
theorem encryptPayload_wire_layout (C : Crypto) (eph : EphemeralKeys) (salt : Bytes)
    (sub : Subscription) (payload : Bytes) (clientPublicKey clientAuth : Bytes)
    (hpk : base64UrlDecode sub.p256dh = some clientPublicKey)
    (hau : base64UrlDecode sub.auth = some clientAuth)
    (hvalid : C.validP256Point clientPublicKey = true) :
    ∃ cek nonce : Bytes,
      encryptPayload C eph salt sub payload =
        .ok ⟨salt ++ toBE4 4096 ++ [65] ++ eph.pubRaw ++
              C.aesGcmEncrypt cek nonce (payload ++ [2]),
             base64UrlEncode eph.pubRaw, base64UrlEncode salt⟩ ∧
      toBE4 4096 = [0, 0, 16, 0] :=
  ⟨_, _, encryptPayload_eq C eph salt sub payload clientPublicKey clientAuth hpk hau hvalid,
    rfl⟩

theorem encryptPayload_wire_layout_witness :
    base64UrlDecode testSub.p256dh = some testClientPublicKey ∧
    base64UrlDecode testSub.auth = some testAuthSecret ∧
    testCrypto.validP256Point testClientPublicKey = true ∧
    (∃ cek nonce : Bytes,
      encryptPayload testCrypto testEph testSalt testSub testPayload =
        .ok ⟨testSalt ++ toBE4 4096 ++ [65] ++ testEph.pubRaw ++
              testCrypto.aesGcmEncrypt cek nonce (testPayload ++ [2]),
             base64UrlEncode testEph.pubRaw, base64UrlEncode testSalt⟩ ∧
      toBE4 4096 = [0, 0, 16, 0]) :=
  ⟨decode_encode testClientPublicKey (by decide),
   decode_encode testAuthSecret (by decide),
   by decide,
   encryptPayload_wire_layout testCrypto testEph testSalt testSub testPayload
     testClientPublicKey testAuthSecret
     (decode_encode testClientPublicKey (by decide))
     (decode_encode testAuthSecret (by decide)) (by decide)⟩

/-- C2: the intermediate key material is derived by the KDF with the
authSecret as salt, the ECDH shared secret as input key material, and
the fixed label followed by the client public key and then the
ephemeral public key; the content-encryption key and the nonce are each
derived with the record salt as salt, that key material as input, and
two distinct fixed info strings; with a 32-byte HMAC their lengths are
32, 16, and 12 bytes. -/
theorem encryptPayload_key_derivation (C : Crypto) (eph : EphemeralKeys) (salt : Bytes)
    (sub : Subscription) (payload : Bytes) (clientPublicKey clientAuth : Bytes)
    (hpk : base64UrlDecode sub.p256dh = some clientPublicKey)
    (hau : base64UrlDecode sub.auth = some clientAuth)
    (hvalid : C.validP256Point clientPublicKey = true)
    (h32 : ∀ k m, (C.hmacSHA256 k m).length = 32) :
    encryptPayload C eph salt sub payload =
      .ok ⟨salt ++ toBE4 4096 ++ [65] ++ eph.pubRaw ++
            C.aesGcmEncrypt
              (hkdf C salt
                (hkdf C clientAuth (C.ecdhBits eph.priv clientPublicKey)
                  (utf8 "WebPush: info\x00" ++ clientPublicKey ++ eph.pubRaw) 32)
                (utf8 "Content-Encoding: aes128gcm\x00") 16)
              (hkdf C salt
                (hkdf C clientAuth (C.ecdhBits eph.priv clientPublicKey)
                  (utf8 "WebPush: info\x00" ++ clientPublicKey ++ eph.pubRaw) 32)
                (utf8 "Content-Encoding: nonce\x00") 12)
              (payload ++ [2]),
           base64UrlEncode eph.pubRaw, base64UrlEncode salt⟩ ∧
    (hkdf C clientAuth (C.ecdhBits eph.priv clientPublicKey)
      (utf8 "WebPush: info\x00" ++ clientPublicKey ++ eph.pubRaw) 32).length = 32 ∧
    (hkdf C salt
      (hkdf C clientAuth (C.ecdhBits eph.priv clientPublicKey)
        (utf8 "WebPush: info\x00" ++ clientPublicKey ++ eph.pubRaw) 32)
      (utf8 "Content-Encoding: aes128gcm\x00") 16).length = 16 ∧
    (hkdf C salt
      (hkdf C clientAuth (C.ecdhBits eph.priv clientPublicKey)
        (utf8 "WebPush: info\x00" ++ clientPublicKey ++ eph.pubRaw) 32)
      (utf8 "Content-Encoding: nonce\x00") 12).length = 12 ∧
    utf8 "Content-Encoding: aes128gcm\x00" ≠ utf8 "Content-Encoding: nonce\x00" := by
  refine ⟨encryptPayload_eq C eph salt sub payload clientPublicKey clientAuth hpk hau hvalid,
    ?_, ?_, ?_, by decide⟩
  · unfold hkdf
    rw [List.length_take, h32]
    omega
  · unfold hkdf
    rw [List.length_take, h32]
    omega
  · unfold hkdf
    rw [List.length_take, h32]
    omega

theorem encryptPayload_key_derivation_witness :
    base64UrlDecode testSub.p256dh = some testClientPublicKey ∧
    (∀ k m, (testCrypto.hmacSHA256 k m).length = 32) ∧
    (hkdf testCrypto testAuthSecret (testCrypto.ecdhBits testEph.priv testClientPublicKey)
      (utf8 "WebPush: info\x00" ++ testClientPublicKey ++ testEph.pubRaw) 32).length = 32 ∧
    (hkdf testCrypto testSalt
      (hkdf testCrypto testAuthSecret (testCrypto.ecdhBits testEph.priv testClientPublicKey)
        (utf8 "WebPush: info\x00" ++ testClientPublicKey ++ testEph.pubRaw) 32)
      (utf8 "Content-Encoding: aes128gcm\x00") 16).length = 16 :=
  ⟨decode_encode testClientPublicKey (by decide),
   fun k m => by simp [testCrypto],
   ((encryptPayload_key_derivation testCrypto testEph testSalt testSub testPayload
      testClientPublicKey testAuthSecret
      (decode_encode testClientPublicKey (by decide))
      (decode_encode testAuthSecret (by decide)) (by decide)
      (fun k m => by simp [testCrypto])).2).1,
   (((encryptPayload_key_derivation testCrypto testEph testSalt testSub testPayload
      testClientPublicKey testAuthSecret
      (decode_encode testClientPublicKey (by decide))
      (decode_encode testAuthSecret (by decide)) (by decide)
      (fun k m => by simp [testCrypto])).2).2).1⟩

lemma encryptPayload_ok_body (C : Crypto) (eph : EphemeralKeys) (salt : Bytes)
    (sub : Subscription) (payload : Bytes) (enc : EncryptedPayload)
    (h : encryptPayload C eph salt sub payload = .ok enc) :
    ∃ rest, enc.body = salt ++ rest := by
  rcases hp : base64UrlDecode sub.p256dh with _ | pk
  · unfold encryptPayload at h
    rw [hp] at h
    simp at h
  · rcases ha : base64UrlDecode sub.auth with _ | au
    · unfold encryptPayload at h
      rw [hp, ha] at h
      simp at h
    · by_cases hv : C.validP256Point pk = true
      · rw [encryptPayload_eq C eph salt sub payload pk au hp ha hv] at h
        injection h with h2
        rw [← h2]
        simp only [List.append_assoc]
        exact ⟨_, rfl⟩
      · rw [encryptPayload_invalid_key C eph salt sub payload pk au hp ha
          (Bool.not_eq_true _ ▸ hv)] at h
        simp at h

/-- C9: with the randomness modelled as explicit inputs, two successful
encryptions of the same payload for the same subscription under
distinct 16-byte record salts produce distinct wire records. -/
theorem encryptPayload_distinct_salts (C : Crypto) (eph : EphemeralKeys)
    (salt1 salt2 : Bytes) (sub : Subscription) (payload : Bytes)
    (enc1 enc2 : EncryptedPayload)
    (h1 : salt1.length = 16) (h2 : salt2.length = 16) (hne : salt1 ≠ salt2)
    (e1 : encryptPayload C eph salt1 sub payload = .ok enc1)
    (e2 : encryptPayload C eph salt2 sub payload = .ok enc2) :
    enc1.body ≠ enc2.body := by
  obtain ⟨r1, hb1⟩ := encryptPayload_ok_body C eph salt1 sub payload enc1 e1
  obtain ⟨r2, hb2⟩ := encryptPayload_ok_body C eph salt2 sub payload enc2 e2
  intro heq
  apply hne
  have htake := congrArg (List.take 16) heq
  rw [hb1, hb2] at htake
  have t1 : (salt1 ++ r1).take 16 = salt1 := by
    rw [← h1]; exact List.take_left _ _
  have t2 : (salt2 ++ r2).take 16 = salt2 := by
    rw [← h2]; exact List.take_left _ _
  rw [t1, t2] at htake
  exact htake

theorem encryptPayload_distinct_salts_witness :
    testSalt.length = 16 ∧ testSalt2.length = 16 ∧ testSalt ≠ testSalt2 ∧
    ∃ enc1 enc2 : EncryptedPayload,
      encryptPayload testCrypto testEph testSalt testSub testPayload = .ok enc1 ∧
      encryptPayload testCrypto testEph testSalt2 testSub testPayload = .ok enc2 ∧
      enc1.body ≠ enc2.body := by
  have d1 := decode_encode testClientPublicKey (by decide)
  have d2 := decode_encode testAuthSecret (by decide)
  have q1 := encryptPayload_eq testCrypto testEph testSalt testSub testPayload
    testClientPublicKey testAuthSecret d1 d2 (by decide)
  have q2 := encryptPayload_eq testCrypto testEph testSalt2 testSub testPayload
    testClientPublicKey testAuthSecret d1 d2 (by decide)
  exact ⟨by decide, by decide, by decide, _, _, q1, q2,
    encryptPayload_distinct_salts testCrypto testEph testSalt testSalt2 testSub testPayload
      _ _ (by decide) (by decide) (by decide) q1 q2⟩

lemma createVapidAuth_eq (C : Crypto) (nowSec : Nat) (endpoint : UrlParts)
    (vapidPublicKey vapidPrivateKey : String) (privBytes pubBytes : Bytes)
    (hd : base64UrlDecode vapidPrivateKey = some privBytes)
    (hq : base64UrlDecode vapidPublicKey = some pubBytes) :
    createVapidAuth C nowSec endpoint vapidPublicKey vapidPrivateKey =
      .ok ("vapid t=" ++
        (base64UrlEncode (utf8 "\x7b\"typ\":\"JWT\",\"alg\":\"ES256\"\x7d") ++ "." ++
         base64UrlEncode (utf8 ("\x7b\"aud\":\"" ++ (endpoint.protocol ++ "//" ++ endpoint.host)
           ++ "\",\"exp\":" ++ toString (nowSec + 12 * 60 * 60)
           ++ ",\"sub\":\"mailto:info@generated-news.com\"\x7d")) ++ "." ++
         base64UrlEncode (C.ecdsaSign privBytes (utf8 (
           base64UrlEncode (utf8 "\x7b\"typ\":\"JWT\",\"alg\":\"ES256\"\x7d") ++ "." ++
           base64UrlEncode (utf8 ("\x7b\"aud\":\"" ++ (endpoint.protocol ++ "//" ++ endpoint.host)
             ++ "\",\"exp\":" ++ toString (nowSec + 12 * 60 * 60)
             ++ ",\"sub\":\"mailto:info@generated-news.com\"\x7d")))))) ++
        ", k=" ++ vapidPublicKey) := by
  unfold createVapidAuth
  rw [hd, hq]

/-- C6: the authorization value is exactly
`vapid t=<headerB64.claimsB64.signatureB64>, k=<senderPublicKey>`,
where the first segment encodes the fixed JWT/ES256 header, the second
encodes claims whose audience is the endpoint's scheme and host, whose
expiry is the current time plus 12 hours, and whose subject is the
fixed contact identity, and the third is the ECDSA signature of the
two dot-joined segments. -/
theorem createVapidAuth_format (C : Crypto) (nowSec : Nat) (endpoint : UrlParts)
    (vapidPublicKey vapidPrivateKey : String) (privBytes pubBytes : Bytes)
    (hd : base64UrlDecode vapidPrivateKey = some privBytes)
    (hq : base64UrlDecode vapidPublicKey = some pubBytes) :
    createVapidAuth C nowSec endpoint vapidPublicKey vapidPrivateKey =
      .ok ("vapid t=" ++
        (base64UrlEncode (utf8 "\x7b\"typ\":\"JWT\",\"alg\":\"ES256\"\x7d") ++ "." ++
         base64UrlEncode (utf8 ("\x7b\"aud\":\"" ++ (endpoint.protocol ++ "//" ++ endpoint.host)
           ++ "\",\"exp\":" ++ toString (nowSec + 12 * 60 * 60)
           ++ ",\"sub\":\"mailto:info@generated-news.com\"\x7d")) ++ "." ++
         base64UrlEncode (C.ecdsaSign privBytes (utf8 (
           base64UrlEncode (utf8 "\x7b\"typ\":\"JWT\",\"alg\":\"ES256\"\x7d") ++ "." ++
           base64UrlEncode (utf8 ("\x7b\"aud\":\"" ++ (endpoint.protocol ++ "//" ++ endpoint.host)
             ++ "\",\"exp\":" ++ toString (nowSec + 12 * 60 * 60)
             ++ ",\"sub\":\"mailto:info@generated-news.com\"\x7d")))))) ++
        ", k=" ++ vapidPublicKey) :=
  createVapidAuth_eq C nowSec endpoint vapidPublicKey vapidPrivateKey privBytes pubBytes hd hq

theorem createVapidAuth_format_witness :
    base64UrlDecode testEnv.vapidPrivateKey = some (List.replicate 32 7) ∧
    createVapidAuth testCrypto 1000 testEndpoint testEnv.vapidPublicKey testEnv.vapidPrivateKey =
      .ok ("vapid t=" ++
        (base64UrlEncode (utf8 "\x7b\"typ\":\"JWT\",\"alg\":\"ES256\"\x7d") ++ "." ++
         base64UrlEncode (utf8 ("\x7b\"aud\":\"" ++
             (testEndpoint.protocol ++ "//" ++ testEndpoint.host)
           ++ "\",\"exp\":" ++ toString (1000 + 12 * 60 * 60)
           ++ ",\"sub\":\"mailto:info@generated-news.com\"\x7d")) ++ "." ++
         base64UrlEncode (testCrypto.ecdsaSign (List.replicate 32 7) (utf8 (
           base64UrlEncode (utf8 "\x7b\"typ\":\"JWT\",\"alg\":\"ES256\"\x7d") ++ "." ++
           base64UrlEncode (utf8 ("\x7b\"aud\":\"" ++
               (testEndpoint.protocol ++ "//" ++ testEndpoint.host)
             ++ "\",\"exp\":" ++ toString (1000 + 12 * 60 * 60)
             ++ ",\"sub\":\"mailto:info@generated-news.com\"\x7d")))))) ++
        ", k=" ++ testEnv.vapidPublicKey) :=
  ⟨decode_encode (List.replicate 32 7) (by decide),
   createVapidAuth_format testCrypto 1000 testEndpoint testEnv.vapidPublicKey
     testEnv.vapidPrivateKey (List.replicate 32 7) (4 :: List.replicate 64 6)
     (decode_encode (List.replicate 32 7) (by decide))
     (decode_encode (4 :: List.replicate 64 6) (by decide))⟩

lemma sendPush_after_encrypt (C : Crypto) (eph : EphemeralKeys) (salt : Bytes)
    (nowSec : Nat) (sub : Subscription) (payload : Bytes) (env : Env)
    (enc : EncryptedPayload) (auth : String) (s : Nat)
    (henc : encryptPayload C eph salt sub payload = .ok enc)
    (hvap : createVapidAuth C nowSec sub.endpoint env.vapidPublicKey env.vapidPrivateKey =
      .ok auth) :
    sendPushNotification C eph salt nowSec sub payload env (.ok s) =
      ((if s = 410 ∨ s = 404 then ⟨false, true, some s, none⟩
        else ⟨decide (200 ≤ s ∧ s < 300), false, some s, none⟩ : SendResult),
       some [("Content-Type", "application/octet-stream"),
             ("Content-Encoding", "aes128gcm"),
             ("Content-Length", toString enc.body.length),
             ("Authorization", auth),
             ("TTL", "86400"),
             ("Urgency", "normal")]) := by
  unfold sendPushNotification
  simp only [henc, hvap]
  by_cases h : s = 410 ∨ s = 404
  · rw [if_pos h, if_pos h]
  · rw [if_neg h, if_neg h]

lemma sendPush_network_throw (C : Crypto) (eph : EphemeralKeys) (salt : Bytes)
    (nowSec : Nat) (sub : Subscription) (payload : Bytes) (env : Env)
    (enc : EncryptedPayload) (auth : String) (msg : String)
    (henc : encryptPayload C eph salt sub payload = .ok enc)
    (hvap : createVapidAuth C nowSec sub.endpoint env.vapidPublicKey env.vapidPrivateKey =
      .ok auth) :
    sendPushNotification C eph salt nowSec sub payload env (.error msg) =
      (⟨false, false, none, some msg⟩,
       some [("Content-Type", "application/octet-stream"),
             ("Content-Encoding", "aes128gcm"),
             ("Content-Length", toString enc.body.length),
             ("Authorization", auth),
             ("TTL", "86400"),
             ("Urgency", "normal")]) := by
  unfold sendPushNotification
  simp only [henc, hvap]

lemma sendPush_encrypt_throw (C : Crypto) (eph : EphemeralKeys) (salt : Bytes)
    (nowSec : Nat) (sub : Subscription) (payload : Bytes) (env : Env)
    (msg : String) (fetchRes : Except String Nat)
    (henc : encryptPayload C eph salt sub payload = .error msg) :
    sendPushNotification C eph salt nowSec sub payload env fetchRes =
      (⟨false, false, none, some msg⟩, none) := by
  unfold sendPushNotification
  simp only [henc]

/-- C4 counterexample: a subscription whose decoded authSecret has 17
bytes, not 16, is not rejected at all — the encryption succeeds, the
network call is performed (the request headers exist), and a 201
response is reported as success.  No validation precedes the
cryptographic work. -/
theorem no_validation_on_bad_auth_secret :
    (base64UrlDecode testSubBadAuth.auth).map List.length = some 17 ∧
    (sendPushNotification testCrypto testEph testSalt 1000 testSubBadAuth testPayload testEnv
      (.ok 201)).1 = ⟨true, false, some 201, none⟩ ∧
    (sendPushNotification testCrypto testEph testSalt 1000 testSubBadAuth testPayload testEnv
      (.ok 201)).2 ≠ none := by
  have hau := decode_encode (List.replicate 17 2) (by decide)
  have henc := encryptPayload_eq testCrypto testEph testSalt testSubBadAuth testPayload
    testClientPublicKey (List.replicate 17 2)
    (decode_encode testClientPublicKey (by decide)) hau (by decide)
  have hvap := createVapidAuth_eq testCrypto 1000 testEndpoint testEnv.vapidPublicKey
    testEnv.vapidPrivateKey (List.replicate 32 7) (4 :: List.replicate 64 6)
    (decode_encode (List.replicate 32 7) (by decide))
    (decode_encode (4 :: List.replicate 64 6) (by decide))
  have hs := sendPush_after_encrypt testCrypto testEph testSalt 1000 testSubBadAuth
    testPayload testEnv _ _ 201 henc hvap
  refine ⟨?_, ?_, ?_⟩
  · rw [show testSubBadAuth.auth = base64UrlEncode (List.replicate 17 2) from rfl, hau]
    simp
  · rw [hs]
    simp
  · rw [hs]
    simp

/-- C4 (amended): the only pre-network rejection is the crypto
provider's key import: when the decoded client public key is rejected
by `importKey`, the send fails before any network call with the caught
provider error reported in the result — there is no `ValidationError`,
and neither the authSecret length nor the plaintext size is checked. -/
theorem sendPush_invalid_key_no_network (C : Crypto) (eph : EphemeralKeys) (salt : Bytes)
    (nowSec : Nat) (sub : Subscription) (payload : Bytes) (env : Env)
    (fetchRes : Except String Nat) (pk au : Bytes)
    (hpk : base64UrlDecode sub.p256dh = some pk)
    (hau : base64UrlDecode sub.auth = some au)
    (hv : C.validP256Point pk = false) :
    sendPushNotification C eph salt nowSec sub payload env fetchRes =
      (⟨false, false, none, some "DataError"⟩, none) :=
  sendPush_encrypt_throw C eph salt nowSec sub payload env "DataError" fetchRes
    (encryptPayload_invalid_key C eph salt sub payload pk au hpk hau hv)

theorem sendPush_invalid_key_no_network_witness :
    testCrypto.validP256Point (List.replicate 64 1) = false ∧
    sendPushNotification testCrypto testEph testSalt 1000 testSubBadKey testPayload testEnv
      (.ok 201) = (⟨false, false, none, some "DataError"⟩, none) :=
  ⟨by decide,
   sendPush_invalid_key_no_network testCrypto testEph testSalt 1000 testSubBadKey
     testPayload testEnv (.ok 201) (List.replicate 64 1) testAuthSecret
     (decode_encode (List.replicate 64 1) (by decide))
     (decode_encode testAuthSecret (by decide)) (by decide)⟩

/-- C7: per-subscription classification in the trigger loop: a 2xx
status yields the delivered outcome and zero deletion calls; 404 or 410
yields the expired outcome and exactly one deletion call for that
subscription's key, never more; any other status, and any thrown
network error, yields the transient outcome and zero deletion calls. -/
theorem push_outcome_classification (C : Crypto) (nowSec : Nat) (env : Env)
    (payload : Bytes) (name : String) (sub : Subscription) (eph : EphemeralKeys)
    (salt : Bytes) (enc : EncryptedPayload) (auth : String)
    (henc : encryptPayload C eph salt sub payload = .ok enc)
    (hvap : createVapidAuth C nowSec sub.endpoint env.vapidPublicKey env.vapidPrivateKey =
      .ok auth) :
    (∀ s, 200 ≤ s → s < 300 →
      processSubscription C nowSec env payload ⟨name, some sub, eph, salt, .ok s⟩ =
        (⟨1, 0, 0⟩, [])) ∧
    (∀ s, s = 404 ∨ s = 410 →
      processSubscription C nowSec env payload ⟨name, some sub, eph, salt, .ok s⟩ =
        (⟨0, 0, 1⟩, [name])) ∧
    (∀ s, ¬(200 ≤ s ∧ s < 300) → ¬(s = 404 ∨ s = 410) →
      processSubscription C nowSec env payload ⟨name, some sub, eph, salt, .ok s⟩ =
        (⟨0, 1, 0⟩, [])) ∧
    (∀ msg, processSubscription C nowSec env payload ⟨name, some sub, eph, salt, .error msg⟩ =
      (⟨0, 1, 0⟩, [])) := by
  refine ⟨?_, ?_, ?_, ?_⟩
  · intro s h1 h2
    have hs := sendPush_after_encrypt C eph salt nowSec sub payload env enc auth s henc hvap
    rw [if_neg (by omega : ¬(s = 410 ∨ s = 404))] at hs
    rw [show decide (200 ≤ s ∧ s < 300) = true from by simp [h1, h2]] at hs
    simp [processSubscription, hs]
  · intro s h
    have hs := sendPush_after_encrypt C eph salt nowSec sub payload env enc auth s henc hvap
    rw [if_pos (by omega : s = 410 ∨ s = 404)] at hs
    simp [processSubscription, hs]
  · intro s h1 h2
    have hs := sendPush_after_encrypt C eph salt nowSec sub payload env enc auth s henc hvap
    rw [if_neg (by omega : ¬(s = 410 ∨ s = 404))] at hs
    rw [show decide (200 ≤ s ∧ s < 300) = false from decide_eq_false h1] at hs
    simp [processSubscription, hs]
  · intro msg
    have hs := sendPush_network_throw C eph salt nowSec sub payload env enc auth msg henc hvap
    simp [processSubscription, hs]

theorem push_outcome_classification_witness :
    (∀ s, 200 ≤ s → s < 300 →
      processSubscription testCrypto 1000 testEnv testPayload
          ⟨"sub:abc", some testSub, testEph, testSalt, .ok s⟩ = (⟨1, 0, 0⟩, [])) ∧
    (∀ s, s = 404 ∨ s = 410 →
      processSubscription testCrypto 1000 testEnv testPayload
          ⟨"sub:abc", some testSub, testEph, testSalt, .ok s⟩ = (⟨0, 0, 1⟩, ["sub:abc"])) ∧
    (∀ s, ¬(200 ≤ s ∧ s < 300) → ¬(s = 404 ∨ s = 410) →
      processSubscription testCrypto 1000 testEnv testPayload
          ⟨"sub:abc", some testSub, testEph, testSalt, .ok s⟩ = (⟨0, 1, 0⟩, [])) ∧
    (∀ msg, processSubscription testCrypto 1000 testEnv testPayload
        ⟨"sub:abc", some testSub, testEph, testSalt, .error msg⟩ = (⟨0, 1, 0⟩, [])) :=
  push_outcome_classification testCrypto 1000 testEnv testPayload "sub:abc" testSub testEph
    testSalt _ _
    (encryptPayload_eq testCrypto testEph testSalt testSub testPayload testClientPublicKey
      testAuthSecret (decode_encode testClientPublicKey (by decide))
      (decode_encode testAuthSecret (by decide)) (by decide))
    (createVapidAuth_eq testCrypto 1000 testSub.endpoint testEnv.vapidPublicKey
      testEnv.vapidPrivateKey (List.replicate 32 7) (4 :: List.replicate 64 6)
      (decode_encode (List.replicate 32 7) (by decide))
      (decode_encode (4 :: List.replicate 64 6) (by decide)))

lemma triggerPush_cons (C : Crypto) (nowSec : Nat) (env : Env) (payload : Bytes)
    (e : SubEntry) (rest : List SubEntry) :
    triggerPush C nowSec env payload (e :: rest) =
      (addCounts (processSubscription C nowSec env payload e).1
        (triggerPush C nowSec env payload rest).1,
       (processSubscription C nowSec env payload e).2 ++
        (triggerPush C nowSec env payload rest).2) := rfl

lemma processSubscription_stored (C : Crypto) (nowSec : Nat) (env : Env) (payload : Bytes)
    (e : SubEntry) (sub : Subscription) (hst : e.stored = some sub) :
    processSubscription C nowSec env payload e =
      (if (sendPushNotification C e.eph e.salt nowSec sub payload env e.fetchResult).1.success
       then (⟨1, 0, 0⟩, [])
       else if (sendPushNotification C e.eph e.salt nowSec sub payload env
           e.fetchResult).1.expired
       then (⟨0, 0, 1⟩, [e.name])
       else (⟨0, 1, 0⟩, [])) := by
  unfold processSubscription
  rw [hst]

lemma processSubscription_missing (C : Crypto) (nowSec : Nat) (env : Env) (payload : Bytes)
    (e : SubEntry) (hst : e.stored = none) :
    processSubscription C nowSec env payload e = (⟨0, 0, 0⟩, []) := by
  unfold processSubscription
  rw [hst]

/-- C8: the orchestrator is total over any list of subscription
entries, whatever each entry's stored value, randomness, and network
behaviour: it always returns an aggregate whose delivered, transient,
and expired counts sum to the number of present subscriptions, performs
one deletion per expired count, deletes only names of entries whose
send reported expired, and turns every thrown encryption error into a
caught per-message failure rather than an unhandled error. -/
theorem triggerPush_aggregate (C : Crypto) (nowSec : Nat) (env : Env) (payload : Bytes)
    (entries : List SubEntry) :
    ((triggerPush C nowSec env payload entries).1.sent +
      (triggerPush C nowSec env payload entries).1.failed +
      (triggerPush C nowSec env payload entries).1.expired =
        (entries.filter (fun e => e.stored.isSome)).length) ∧
    ((triggerPush C nowSec env payload entries).2.length =
      (triggerPush C nowSec env payload entries).1.expired) ∧
    (∀ n ∈ (triggerPush C nowSec env payload entries).2, ∃ e ∈ entries, e.name = n ∧
      ∃ sub, e.stored = some sub ∧
        (sendPushNotification C e.eph e.salt nowSec sub payload env
          e.fetchResult).1.success = false ∧
        (sendPushNotification C e.eph e.salt nowSec sub payload env
          e.fetchResult).1.expired = true) ∧
    (∀ (eph : EphemeralKeys) (salt : Bytes) (sub : Subscription) (msg : String)
      (fr : Except String Nat), encryptPayload C eph salt sub payload = .error msg →
      (sendPushNotification C eph salt nowSec sub payload env fr).1 =
        ⟨false, false, none, some msg⟩) := by
  have hcatch : ∀ (eph : EphemeralKeys) (salt : Bytes) (sub : Subscription) (msg : String)
      (fr : Except String Nat), encryptPayload C eph salt sub payload = .error msg →
      (sendPushNotification C eph salt nowSec sub payload env fr).1 =
        ⟨false, false, none, some msg⟩ := by
    intro eph salt sub msg fr h
    rw [sendPush_encrypt_throw C eph salt nowSec sub payload env msg fr h]
  induction entries with
  | nil => exact ⟨rfl, rfl, by simp [triggerPush], hcatch⟩
  | cons e rest ih =>
    obtain ⟨ih1, ih2, ih3, _⟩ := ih
    rcases hst : e.stored with _ | sub
    · have hp := processSubscription_missing C nowSec env payload e hst
      refine ⟨?_, ?_, ?_, hcatch⟩
      · simp only [triggerPush_cons, hp, addCounts, List.filter_cons, hst]
        simpa using ih1
      · simpa [triggerPush_cons, hp, addCounts] using ih2
      · intro n hn
        simp only [triggerPush_cons, hp, List.nil_append] at hn
        obtain ⟨e1, he1, hrest⟩ := ih3 n hn
        exact ⟨e1, List.mem_cons_of_mem _ he1, hrest⟩
    · have hp := processSubscription_stored C nowSec env payload e sub hst
      rcases hsucc : (sendPushNotification C e.eph e.salt nowSec sub payload env
          e.fetchResult).1.success with _ | _
      · rcases hexp : (sendPushNotification C e.eph e.salt nowSec sub payload env
            e.fetchResult).1.expired with _ | _
        · rw [hsucc, hexp] at hp
          simp only [if_false, Bool.false_eq_true] at hp
          refine ⟨?_, ?_, ?_, hcatch⟩
          · simp only [triggerPush_cons, hp, addCounts, List.filter_cons, hst,
              Option.isSome_some, if_true, List.length_cons]
            have := ih1
            omega
          · simpa [triggerPush_cons, hp, addCounts] using ih2
          · intro n hn
            simp only [triggerPush_cons, hp, List.nil_append] at hn
            obtain ⟨e1, he1, hrest⟩ := ih3 n hn
            exact ⟨e1, List.mem_cons_of_mem _ he1, hrest⟩
        · rw [hsucc, hexp] at hp
          simp only [if_false, if_true, Bool.false_eq_true] at hp
          refine ⟨?_, ?_, ?_, hcatch⟩
          · simp only [triggerPush_cons, hp, addCounts, List.filter_cons, hst,
              Option.isSome_some, if_true, List.length_cons]
            have := ih1
            omega
          · simp only [triggerPush_cons, hp, addCounts, List.cons_append, List.nil_append,
              List.length_cons]
            have := ih2
            omega
          · intro n hn
            simp only [triggerPush_cons, hp, List.cons_append, List.nil_append,
              List.mem_cons] at hn
            rcases hn with rfl | hn
            · exact ⟨e, List.mem_cons_self _ _, rfl, sub, hst, hsucc, hexp⟩
            · obtain ⟨e1, he1, hrest⟩ := ih3 n hn
              exact ⟨e1, List.mem_cons_of_mem _ he1, hrest⟩
      · rw [hsucc] at hp
        simp only [if_true] at hp
        refine ⟨?_, ?_, ?_, hcatch⟩
        · simp only [triggerPush_cons, hp, addCounts, List.filter_cons, hst,
            Option.isSome_some, if_true, List.length_cons]
          have := ih1
          omega
        · simpa [triggerPush_cons, hp, addCounts] using ih2
        · intro n hn
          simp only [triggerPush_cons, hp, List.nil_append] at hn
          obtain ⟨e1, he1, hrest⟩ := ih3 n hn
          exact ⟨e1, List.mem_cons_of_mem _ he1, hrest⟩

theorem triggerPush_aggregate_witness :
    ((triggerPush testCrypto 1000 testEnv testPayload testEntries).1.sent +
      (triggerPush testCrypto 1000 testEnv testPayload testEntries).1.failed +
      (triggerPush testCrypto 1000 testEnv testPayload testEntries).1.expired =
        (testEntries.filter (fun e => e.stored.isSome)).length) ∧
    ((triggerPush testCrypto 1000 testEnv testPayload testEntries).2.length =
      (triggerPush testCrypto 1000 testEnv testPayload testEntries).1.expired) ∧
    (∀ n ∈ (triggerPush testCrypto 1000 testEnv testPayload testEntries).2,
      ∃ e ∈ testEntries, e.name = n ∧
        ∃ sub, e.stored = some sub ∧
          (sendPushNotification testCrypto e.eph e.salt 1000 sub testPayload testEnv
            e.fetchResult).1.success = false ∧
          (sendPushNotification testCrypto e.eph e.salt 1000 sub testPayload testEnv
            e.fetchResult).1.expired = true) ∧
    (∀ (eph : EphemeralKeys) (salt : Bytes) (sub : Subscription) (msg : String)
      (fr : Except String Nat),
      encryptPayload testCrypto eph salt sub testPayload = .error msg →
      (sendPushNotification testCrypto eph salt 1000 sub testPayload testEnv fr).1 =
        ⟨false, false, none, some msg⟩) :=
  triggerPush_aggregate testCrypto 1000 testEnv testPayload testEntries

/-- C10: a successfully encrypted n-byte plaintext yields a wire body
of exactly n + 103 bytes — 16 salt + 4 record size + 1 key-id length +
65 ephemeral key + (n + 1) delimited plaintext + 16 authentication
tag — and the Content-Length header of the issued request carries that
same number. -/
theorem wire_record_length (C : Crypto) (eph : EphemeralKeys) (salt : Bytes) (nowSec : Nat)
    (sub : Subscription) (payload : Bytes) (env : Env) (fetchRes : Except String Nat)
    (clientPublicKey clientAuth privBytes pubBytes : Bytes) (enc : EncryptedPayload)
    (hpk : base64UrlDecode sub.p256dh = some clientPublicKey)
    (hau : base64UrlDecode sub.auth = some clientAuth)
    (hvalid : C.validP256Point clientPublicKey = true)
    (hsalt : salt.length = 16) (hephl : eph.pubRaw.length = 65)
    (hgcm : ∀ k iv p, (C.aesGcmEncrypt k iv p).length = p.length + 16)
    (henc : encryptPayload C eph salt sub payload = .ok enc)
    (hd : base64UrlDecode env.vapidPrivateKey = some privBytes)
    (hq : base64UrlDecode env.vapidPublicKey = some pubBytes) :
    enc.body.length = payload.length + 103 ∧
    ∃ hdrs, (sendPushNotification C eph salt nowSec sub payload env fetchRes).2 = some hdrs ∧
      ("Content-Length", toString (payload.length + 103)) ∈ hdrs := by
  have heq := encryptPayload_eq C eph salt sub payload clientPublicKey clientAuth hpk hau hvalid
  have henc2 := henc
  rw [heq] at henc2
  injection henc2 with h2
  have hlen : enc.body.length = payload.length + 103 := by
    rw [← h2]
    simp only [toBE4, List.length_append, List.length_cons, List.length_nil, hsalt, hephl,
      hgcm]
    omega
  obtain ⟨auth, hvap⟩ : ∃ a, createVapidAuth C nowSec sub.endpoint env.vapidPublicKey
      env.vapidPrivateKey = .ok a :=
    ⟨_, createVapidAuth_eq C nowSec sub.endpoint env.vapidPublicKey env.vapidPrivateKey
      privBytes pubBytes hd hq⟩
  refine ⟨hlen, ?_⟩
  have hmem : ("Content-Length", toString (payload.length + 103)) ∈
      [("Content-Type", "application/octet-stream"), ("Content-Encoding", "aes128gcm"),
       ("Content-Length", toString enc.body.length), ("Authorization", auth),
       ("TTL", "86400"), ("Urgency", "normal")] := by
    rw [hlen]
    simp
  rcases fetchRes with msg | s
  · rw [sendPush_network_throw C eph salt nowSec sub payload env enc auth msg henc hvap]
    exact ⟨_, rfl, hmem⟩
  · rw [sendPush_after_encrypt C eph salt nowSec sub payload env enc auth s henc hvap]
    exact ⟨_, rfl, hmem⟩

theorem wire_record_length_witness :
    testSalt.length = 16 ∧ testEph.pubRaw.length = 65 ∧
    (∀ k iv p, (testCrypto.aesGcmEncrypt k iv p).length = p.length + 16) ∧
    ∃ enc, encryptPayload testCrypto testEph testSalt testSub testPayload = .ok enc ∧
      enc.body.length = testPayload.length + 103 ∧
      ∃ hdrs, (sendPushNotification testCrypto testEph testSalt 1000 testSub testPayload
          testEnv (.ok 201)).2 = some hdrs ∧
        ("Content-Length", toString (testPayload.length + 103)) ∈ hdrs := by
  have henc := encryptPayload_eq testCrypto testEph testSalt testSub testPayload
    testClientPublicKey testAuthSecret (decode_encode testClientPublicKey (by decide))
    (decode_encode testAuthSecret (by decide)) (by decide)
  have h := wire_record_length testCrypto testEph testSalt 1000 testSub testPayload testEnv
    (.ok 201) testClientPublicKey testAuthSecret (List.replicate 32 7)
    (4 :: List.replicate 64 6) _
    (decode_encode testClientPublicKey (by decide))
    (decode_encode testAuthSecret (by decide)) (by decide) (by decide) (by decide)
    (fun k iv p => by simp [testCrypto]) henc
    (decode_encode (List.replicate 32 7) (by decide))
    (decode_encode (4 :: List.replicate 64 6) (by decide))
  exact ⟨by decide, by decide, fun k iv p => by simp [testCrypto], _, henc, h.1, h.2⟩

end PushApi
